import Mathlib

/-!
Verification development for the KPI aggregation processor
(`backend/business/kpis/processor.py`).

The processor's own logic (`process_tick`, `get_aggregations_to_keep`,
`compute_kpi_values_for_aggregation_kind`, `get_timestamps`,
`restore_from_db`) is embedded directly from the source.  The collaborators
that the source imports but whose files are not part of the sources at hand
(`Period`, `Value`, `Kpi`, `Persister`) are modelled from the specification,
as is the Python standard-library calendar arithmetic (`datetime`,
`timedelta`, `dateutil.relativedelta`) that `get_timestamps` and the period
shifts rely on.

Numeric KPI values are modelled as integers: no claim depends on the
arithmetic of the value itself, only on equality of recomputed values for
identical arguments.
-/

/-- Python exceptions raised by the embedded code: `AttributeError` (raised
explicitly by the processor on an unsupported aggregation kind) and
`ValueError` (raised by `datetime` on out-of-range components). -/
inductive PyErr where
  | attributeError
  | valueError
deriving DecidableEq, Repr

/-! ## Calendar arithmetic (models Python `datetime` semantics) -/

/-- Gregorian leap-year test, as in Python's `calendar.isleap`. -/
def isLeap (y : Int) : Bool :=
  (y % 4 == 0 && y % 100 != 0) || (y % 400 == 0)

/-- Number of days in a month of the Gregorian calendar. -/
def daysInMonth (y m : Int) : Int :=
  if m = 2 then (if isLeap y then 29 else 28)
  else if m = 4 ∨ m = 6 ∨ m = 9 ∨ m = 11 then 30
  else 31

/-- Cumulative number of days before month `m` in year `y` (0 for January). -/
def daysBeforeMonth (y m : Int) : Int :=
  (if m ≤ 1 then 0
   else if m = 2 then 31
   else if m = 3 then 59
   else if m = 4 then 90
   else if m = 5 then 120
   else if m = 6 then 151
   else if m = 7 then 181
   else if m = 8 then 212
   else if m = 9 then 243
   else if m = 10 then 273
   else if m = 11 then 304
   else 334)
  + (if 3 ≤ m ∧ isLeap y then 1 else 0)

/-- Number of leap years `z` with `z ≤ x` (for positive `x`). -/
def countLeapsUpto (x : Int) : Int :=
  x / 4 - x / 100 + x / 400

/-- Days elapsed since the Unix epoch 1970-01-01 for the civil date
`(y, m, d)`.  Python's `datetime.timestamp` (taken in UTC) is this number
times 86400 for a midnight datetime. -/
def daysFromCivil (y m d : Int) : Int :=
  365 * (y - 1970) + (countLeapsUpto (y - 1) - countLeapsUpto 1969)
    + daysBeforeMonth y m + (d - 1)

/-- Python `date.weekday()` convention: Monday = 0, ..., Sunday = 6.
1970-01-01 was a Thursday (= 3). -/
def weekdayOf (y m d : Int) : Int :=
  (daysFromCivil y m d + 3) % 7

/-- Next civil day (handles month and year rollover). -/
def succCivil : Int × Int × Int → Int × Int × Int
  | (y, m, d) =>
    if d < daysInMonth y m then (y, m, d + 1)
    else if m < 12 then (y, m + 1, 1)
    else (y + 1, 1, 1)

/-- Previous civil day (handles month and year rollover). -/
def predCivil : Int × Int × Int → Int × Int × Int
  | (y, m, d) =>
    if 1 < d then (y, m, d - 1)
    else if 1 < m then (y, m - 1, daysInMonth y (m - 1))
    else (y - 1, 12, 31)

/-- Shift a civil date by a signed number of days
(models `timedelta(days=n)` addition). -/
def addCivil (t : Int × Int × Int) (n : Int) : Int × Int × Int :=
  if 0 ≤ n then succCivil^[n.toNat] t else predCivil^[(-n).toNat] t

/-! ## Period (modelled from the spec) -/

/-- Modelled from the spec: the `Period` abstraction
(`backend/business/period.py`, not among the sources at hand) represents a
point in time at some clock tick, exposing `year`, `month`, `day`,
`weekday` and supporting truncation to a granularity label and calendar
shifting.  Tick resolution is hourly, so a period is a civil date plus an
hour. -/
structure Period where
  year : Int
  month : Int
  day : Int
  hour : Int
deriving DecidableEq, Repr

/-- A period is valid when its fields denote a real calendar date and hour.
Real periods are constructed from `datetime` values, which enforce this. -/
def Period.Valid (p : Period) : Prop :=
  1 ≤ p.month ∧ p.month ≤ 12 ∧ 1 ≤ p.day ∧ p.day ≤ daysInMonth p.year p.month
    ∧ 0 ≤ p.hour ∧ p.hour ≤ 23

instance (p : Period) : Decidable p.Valid := by
  unfold Period.Valid; exact inferInstance

/-- Modelled from the spec: a bucket label, the deterministic key
identifying the bucket containing a period at a given granularity.  Label
equality coincides with same-bucket. -/
inductive Label where
  | dayL (y m d : Int)
  | weekL (w : Int)
  | monthL (y m : Int)
  | yearL (y : Int)
deriving DecidableEq, Repr

/-- Modelled from the spec: the relative offsets that the processor passes
to `Period.get_shifted` (`dateutil.relativedelta` with a single field). -/
inductive RelativeDelta where
  | days (n : Int)
  | weeks (n : Int)
  | months (n : Int)
deriving DecidableEq, Repr

/-- Shift a period by a signed number of days, keeping the hour. -/
def Period.shiftDays (p : Period) (n : Int) : Period :=
  let c := addCivil (p.year, p.month, p.day) n
  ⟨c.1, c.2.1, c.2.2, p.hour⟩

/-- Shift a period by a signed number of months with `relativedelta`
semantics: land on the same day-of-month, clamped to the length of the
target month. -/
def Period.shiftMonths (p : Period) (n : Int) : Period :=
  let total := p.year * 12 + (p.month - 1) + n
  let y := total / 12
  let m := total % 12 + 1
  ⟨y, m, min p.day (daysInMonth y m), p.hour⟩

/-- Modelled from the spec: `Period.get_shifted(relativedelta(...))`. -/
def Period.get_shifted (p : Period) : RelativeDelta → Period
  | .days n => p.shiftDays n
  | .weeks n => p.shiftDays (7 * n)
  | .months n => p.shiftMonths n

/-- Day bucket label of a period. -/
def Period.truncD (p : Period) : Label := .dayL p.year p.month p.day

/-- Python `weekday()` of the period's date (Monday = 0). -/
def Period.weekday (p : Period) : Int := weekdayOf p.year p.month p.day

/-- Week bucket label: the index of the Monday-based week containing the
period's date. -/
def Period.truncW (p : Period) : Label :=
  .weekL ((daysFromCivil p.year p.month p.day + 3) / 7)

/-- Month bucket label of a period. -/
def Period.truncM (p : Period) : Label := .monthL p.year p.month

/-- Year bucket label of a period. -/
def Period.truncY (p : Period) : Label := .yearL p.year

/-- Modelled from the spec: `Period.get_truncated_value(agg_kind)`, the
bucket label of the period at the given granularity; granularities other
than the four supported kinds are a contract violation. -/
def Period.get_truncated_value (p : Period) (agg_kind : String) :
    Except PyErr Label :=
  if agg_kind = "D" then .ok p.truncD
  else if agg_kind = "W" then .ok p.truncW
  else if agg_kind = "M" then .ok p.truncM
  else if agg_kind = "Y" then .ok p.truncY
  else .error .attributeError

/-- Absolute hour index of a period (hours since the epoch), used to compare
periods chronologically. -/
def Period.hourIndex (p : Period) : Int :=
  daysFromCivil p.year p.month p.day * 24 + p.hour

/-! ## Python `datetime` values as used by `get_timestamps` -/

/-- Model of a Python `datetime` at midnight, as constructed in
`get_timestamps` (the source never sets sub-day components). -/
structure PyDatetime where
  year : Int
  month : Int
  day : Int
deriving DecidableEq, Repr

/-- Python `datetime(year, month, day)`: raises `ValueError` when the
components are out of range (in particular `month = 13`). -/
def mkDatetime (y m d : Int) : Except PyErr PyDatetime :=
  if 1 ≤ m ∧ m ≤ 12 ∧ 1 ≤ d ∧ d ≤ daysInMonth y m then .ok ⟨y, m, d⟩
  else .error .valueError

/-- Python `int(dt.timestamp())` for a midnight datetime, taken in UTC. -/
def PyDatetime.timestamp (t : PyDatetime) : Int :=
  daysFromCivil t.year t.month t.day * 86400

/-- Python `dt + timedelta(days=n)`. -/
def PyDatetime.addDays (t : PyDatetime) (n : Int) : PyDatetime :=
  let c := addCivil (t.year, t.month, t.day) n
  ⟨c.1, c.2.1, c.2.2⟩

/-- Source `Timestamps` dataclass: a half-open absolute time window. -/
structure Timestamps where
  start : Int
  stop : Int
deriving DecidableEq, Repr

/-! ## Values, KPIs and the persisted slice (modelled from the spec) -/

/-- Modelled from the spec: a persisted aggregate record for a fixed
`(kpi_id, agg_kind)` pair: bucket label and numeric value
(`backend/business/kpis/value.py` is not among the sources at hand). -/
structure Value where
  agg_value : Label
  kpi_value : Int
deriving DecidableEq, Repr

/-- Modelled from the spec: a KPI has a stable unique identifier and
computes a numeric value for a granularity and half-open window
(`backend/business/kpis/kpi.py` is not among the sources at hand).  The
computation is a pure function of its arguments, matching the spec's
requirement that repeated calls with identical arguments and unchanged raw
data return the same result. -/
structure Kpi where
  unique_id : Nat
  get_value : String → Int → Int → Int

/-- Modelled from the spec: the persisted `Value` rows for one
`(kpi_id, agg_kind)` key, in insertion order.  `Persister` operations are
keyed by `(kpi_id, agg_kind, agg_value)`: a delete removes every row whose
label matches, an update rewrites the numeric value of every row whose
label matches, an add appends a row. -/
abbrev DbSlice := List Value

/-! ## The processor's granularity resolvers (embedded from the source) -/

/-- Source `Processor.get_aggregations_to_keep` (processor.py lines 59-84):
the labels that must survive pruning for a granularity, or `none`
(Python `None`) meaning all values are kept; any other granularity raises
`AttributeError`. -/
def Processor.get_aggregations_to_keep (agg_kind : String) (now : Period) :
    Except PyErr (Option (List Label)) :=
  if agg_kind = "D" then
    .ok (some ((List.range 7).map fun (delta : Nat) =>
      (now.get_shifted (.days (-(delta : Int)))).truncD))
  else if agg_kind = "W" then
    .ok (some ((List.range 4).map fun (delta : Nat) =>
      (now.get_shifted (.weeks (-(delta : Int)))).truncW))
  else if agg_kind = "M" then
    .ok (some ((List.range 12).map fun (delta : Nat) =>
      (now.get_shifted (.months (-(delta : Int)))).truncM))
  else if agg_kind = "Y" then
    .ok none
  else .error .attributeError

/-- Source `Processor.get_timestamps` (processor.py lines 146-176): the
half-open `[start, stop)` window for a granularity and reference period;
any other granularity raises `AttributeError`.  Note the monthly branch
constructs `datetime(year, month + 1, 1)`, which raises `ValueError` when
the reference month is December. -/
def Processor.get_timestamps (agg_kind : String) (now : Period) :
    Except PyErr Timestamps := do
  if agg_kind = "D" then
    let start ← mkDatetime now.year now.month now.day
    return ⟨start.timestamp, (start.addDays 1).timestamp⟩
  else if agg_kind = "W" then
    let base ← mkDatetime now.year now.month now.day
    let start := base.addDays (1 - now.weekday)
    return ⟨start.timestamp, (start.addDays 7).timestamp⟩
  else if agg_kind = "M" then
    let start ← mkDatetime now.year now.month 1
    let stop ← mkDatetime now.year (now.month + 1) 1
    return ⟨start.timestamp, stop.timestamp⟩
  else if agg_kind = "Y" then
    let start ← mkDatetime now.year 1 1
    let stop ← mkDatetime (now.year + 1) 1 1
    return ⟨start.timestamp, stop.timestamp⟩
  else
    throw .attributeError

/-! ## The upsert-with-scan recomputation (embedded from the source) -/

/-- Deletion guard of the scan in
`compute_kpi_values_for_aggregation_kind`: Python
`aggregations_to_keep and value.agg_value not in aggregations_to_keep`
(a `None` or empty keep-list is falsy and suppresses deletion). -/
def keepDelete (keep : Option (List Label)) (l : Label) : Bool :=
  match keep with
  | none => false
  | some ks => if ks ≠ [] ∧ l ∉ ks then true else false

/-- Effect on one persisted row of `Persister.update_kpi_value` keyed by
the current bucket label: rows carrying that label get the freshly computed
number, all others are untouched. -/
def updCurrent (current : Label) (newVal : Int) (r : Value) : Value :=
  if r.agg_value = current then ⟨r.agg_value, newVal⟩ else r

/-- One iteration of the scan body of
`compute_kpi_values_for_aggregation_kind` (processor.py lines 102-126),
acting on the pair (current DB slice, `value_updated` flag) for one element
`v` of the snapshot list: delete every row keyed by `v`'s label when it is
outside the retained set, then, when `v`'s label is the current bucket
label, rewrite the value of every row keyed by that label and record the
update. -/
def scanStep (current : Label) (keep : Option (List Label)) (newVal : Int)
    (acc : DbSlice × Bool) (v : Value) : DbSlice × Bool :=
  let db := if keepDelete keep v.agg_value then
      acc.1.filter (fun r => r.agg_value ≠ v.agg_value)
    else acc.1
  if v.agg_value = current then
    (db.map (updCurrent current newVal), true)
  else
    (db, acc.2)

/-- The database component of one scan iteration, without the
`value_updated` flag (the flag never influences the database effect). -/
def stepDb (current : Label) (keep : Option (List Label)) (newVal : Int)
    (db : DbSlice) (v : Value) : DbSlice :=
  let db1 := if keepDelete keep v.agg_value then
      db.filter (fun r => r.agg_value ≠ v.agg_value)
    else db
  if v.agg_value = current then db1.map (updCurrent current newVal) else db1

/-- Source `Processor.compute_kpi_values_for_aggregation_kind`
(processor.py lines 86-144), acting on the persisted slice for
`(kpi.unique_id, agg_kind)`: fetch the rows, scan them once
(deleting rows outside the retained set and updating the row for the
current bucket label), then create a new row for the current bucket label
when no existing row matched it.  The KPI value is a pure function, so the
repeated `kpi.get_value` calls of the source all yield the same number,
hoisted here as `kv`. -/
def Processor.compute_kpi_values_for_aggregation_kind (now : Period)
    (kpi : Kpi) (agg_kind : String) (db : DbSlice) :
    Except PyErr DbSlice := do
  let values := db
  let current_agg_value ← now.get_truncated_value agg_kind
  let aggregations_to_keep ← Processor.get_aggregations_to_keep agg_kind now
  let timestamps ← Processor.get_timestamps agg_kind now
  let kv := kpi.get_value agg_kind timestamps.start timestamps.stop
  let scanned := values.foldl
    (scanStep current_agg_value aggregations_to_keep kv) (values, false)
  if scanned.2 then
    return scanned.1
  else
    return scanned.1 ++ [⟨current_agg_value, kv⟩]

/-! ## The processor tick driver (embedded from the source)

The per-`(kpi, agg_kind)` database effect of a tick is
`compute_kpi_values_for_aggregation_kind` above; the tick driver itself is
embedded with its persistence effects reified as an ordered trace of
recomputation invocations, which is what the scheduling claims are
about. -/

/-- One recorded invocation of
`compute_kpi_values_for_aggregation_kind`: which KPI, which aggregation
kind, and which reference period it was passed. -/
structure Event where
  kpi_id : Nat
  agg_kind : String
  ref : Period
deriving DecidableEq, Repr

/-- Processor state: the tracked KPIs, the `current_period` cursor and the
`current_day` label of the last day a yearly aggregation ran. -/
structure ProcState where
  kpis : List Kpi
  current_period : Period
  current_day : Label

/-- Source `Processor.__init__`: seed the cursor from the first observed
period and its day truncation. -/
def ProcState.init (kpis : List Kpi) (now : Period) : ProcState :=
  ⟨kpis, now, now.truncD⟩

/-- Recomputation invocations for the daily, weekly and monthly kinds, in
the order the source's nested loops issue them (KPI-major). -/
def dwmEvents (kpis : List Kpi) (ref : Period) : List Event :=
  kpis.flatMap fun k =>
    ["D", "W", "M"].map fun g => ⟨k.unique_id, g, ref⟩

/-- Recomputation invocations for the yearly kind, one per KPI. -/
def yEvents (kpis : List Kpi) (ref : Period) : List Event :=
  kpis.map fun k => ⟨k.unique_id, "Y", ref⟩

/-- Source `Processor.process_tick` (processor.py lines 28-57): returns the
source's boolean result, the new processor state, and the trace of
recomputation invocations issued.  If the period is unchanged, nothing
happens; otherwise the cursor advances, daily/weekly/monthly recomputation
runs for every KPI with the previous period as reference, and, when the
day truncation of the new period differs from `current_day`, yearly
recomputation also runs (with the previous period as reference) and
`current_day` advances. -/
def Processor.process_tick (st : ProcState) (now : Period) :
    Bool × ProcState × List Event :=
  if st.current_period = now then
    (false, st, [])
  else
    let period_to_compute := st.current_period
    let now_day := now.truncD
    if st.current_day ≠ now_day then
      (true, ⟨st.kpis, now, now_day⟩,
        dwmEvents st.kpis period_to_compute ++ yEvents st.kpis period_to_compute)
    else
      (true, ⟨st.kpis, now, st.current_day⟩,
        dwmEvents st.kpis period_to_compute)

/-- Run a sequence of ticks, collecting each tick's boolean result and
trace. -/
def runTicks (st : ProcState) : List Period → ProcState × List (Bool × List Event)
  | [] => (st, [])
  | p :: rest =>
    let r := Processor.process_tick st p
    let tail := runTicks r.2.1 rest
    (tail.1, (r.1, r.2.2) :: tail.2)

/-- The successive values of the `current_period` cursor after each tick of
a sequence. -/
def cursorsAfter (st : ProcState) : List Period → List Period
  | [] => []
  | p :: rest =>
    let st' := (Processor.process_tick st p).2.1
    st'.current_period :: cursorsAfter st' rest

/-- Source `Processor.restore_from_db` (processor.py lines 178-204), with
the persisted last-period marker (`Persister.get_last_current_period`,
modelled from the spec) supplied as an argument: no marker means nothing to
do; otherwise daily/weekly/monthly recomputation runs for every KPI with
the persisted period as reference when that period differs from the
in-memory cursor, and yearly recomputation runs when the persisted period's
day label differs from `current_day`.  The processor state is never
modified. -/
def Processor.restore_from_db (st : ProcState) (lastPeriod : Option Period) :
    ProcState × List Event :=
  match lastPeriod with
  | none => (st, [])
  | some lp =>
    let evs1 := if lp ≠ st.current_period then dwmEvents st.kpis lp else []
    let evs2 := if st.current_day ≠ lp.truncD then yEvents st.kpis lp else []
    (st, evs1 ++ evs2)

deriving instance DecidableEq for Except

/-! ## Small facts about the resolvers -/

/-- Shifting by zero days is the identity. -/
theorem Period.shiftDays_zero (p : Period) : p.shiftDays 0 = p := by
  simp [Period.shiftDays, addCivil]

/-- Truncating a zero-month shift to month gives the period's own month
label, for a valid period. -/
theorem Period.truncM_shiftMonths_zero (p : Period) (hp : p.Valid) :
    (p.shiftMonths 0).truncM = p.truncM := by
  obtain ⟨h1, h2, -⟩ := hp
  simp only [Period.shiftMonths, Period.truncM, Label.monthL.injEq]
  omega

/-- A tick with an unchanged period is a no-op. -/
theorem tick_same (st : ProcState) (now : Period)
    (h : st.current_period = now) :
    Processor.process_tick st now = (false, st, []) := by
  simp [Processor.process_tick, h]

/-- A tick that advances across a day boundary: full characterization. -/
theorem tick_advance_newday (st : ProcState) (now : Period)
    (h : st.current_period ≠ now) (hd : st.current_day ≠ now.truncD) :
    Processor.process_tick st now =
      (true, ⟨st.kpis, now, now.truncD⟩,
        dwmEvents st.kpis st.current_period
          ++ yEvents st.kpis st.current_period) := by
  simp [Processor.process_tick, h, hd]

/-- A tick that advances within the same day: full characterization. -/
theorem tick_advance_sameday (st : ProcState) (now : Period)
    (h : st.current_period ≠ now) (hd : st.current_day = now.truncD) :
    Processor.process_tick st now =
      (true, ⟨st.kpis, now, st.current_day⟩,
        dwmEvents st.kpis st.current_period) := by
  simp [Processor.process_tick, h, hd]

/-- After any tick the cursor is either unchanged (no-op) or equal to the
tick's period. -/
theorem tick_cursor (st : ProcState) (now : Period) :
    (Processor.process_tick st now).2.1.current_period = now ∨
      (Processor.process_tick st now).2.1 = st ∧ st.current_period = now := by
  by_cases h : st.current_period = now
  · right; rw [tick_same st now h]; exact ⟨rfl, h⟩
  · left
    by_cases hd : st.current_day = now.truncD
    · rw [tick_advance_sameday st now h hd]
    · rw [tick_advance_newday st now h hd]

/-! ## Claim C2: monthly window (December rollover is broken in the code) -/

/-- Claim C2: for the reference period 2024-03-15 14:00 the monthly window
is [2024-03-01T00:00Z, 2024-04-01T00:00Z) as the claim states, but for a
December reference period (2024-12-15 here) `get_timestamps` does not roll
over into January: it constructs `datetime(year, 13, 1)`, which raises
`ValueError`, so no window is returned at all.  The epoch seconds
1709251200, 1711929600 are 2024-03-01T00:00Z and 2024-04-01T00:00Z. -/
theorem C2_monthly_window_december_bug :
    Processor.get_timestamps "M" ⟨2024, 3, 15, 14⟩ = .ok ⟨1709251200, 1711929600⟩
      ∧ Processor.get_timestamps "M" ⟨2024, 12, 15, 10⟩ = .error .valueError := by
  constructor
  · decide
  · decide

/-! ## Claim C6: a tick with an unchanged period is a pure no-op -/

/-- Claim C6: calling `process_tick` with a period equal to the stored
`current_period` returns `False`, leaves the processor state (KPIs, cursor,
day) unchanged, and issues no recomputation invocations (and hence no
persistence reads or writes beyond the equality test, which touches no
storage). -/
theorem C6_tick_same_period_noop (st : ProcState) (now : Period)
    (h : now = st.current_period) :
    Processor.process_tick st now = (false, st, []) :=
  tick_same st now h.symm

/-- Witness for C6 at a concrete state and period. -/
theorem C6_tick_same_period_noop_witness :
    Processor.process_tick (ProcState.init [] ⟨2024, 3, 15, 14⟩) ⟨2024, 3, 15, 14⟩
      = (false, ProcState.init [] ⟨2024, 3, 15, 14⟩, []) :=
  C6_tick_same_period_noop (ProcState.init [] ⟨2024, 3, 15, 14⟩) ⟨2024, 3, 15, 14⟩ rfl

/-! ## Claim C8: unsupported granularities fail with an error -/

/-- Claim C8: for any granularity other than the four supported kinds, both
the window resolver and the retention resolver fail with the
`AttributeError` that the source raises (the spec's `InvalidGranularity`
contract violation) instead of returning a value. -/
theorem C8_invalid_granularity_fails (g : String) (now : Period)
    (h : g ≠ "D" ∧ g ≠ "W" ∧ g ≠ "M" ∧ g ≠ "Y") :
    Processor.get_timestamps g now = .error .attributeError
      ∧ Processor.get_aggregations_to_keep g now = .error .attributeError := by
  obtain ⟨h1, h2, h3, h4⟩ := h
  constructor
  · simp only [Processor.get_timestamps, h1, h2, h3, h4, if_false, ite_false]
    rfl
  · simp only [Processor.get_aggregations_to_keep, h1, h2, h3, h4,
      if_false, ite_false]

/-- Witness for C8 at the unsupported granularity "H". -/
theorem C8_invalid_granularity_fails_witness :
    Processor.get_timestamps "H" ⟨2024, 3, 15, 14⟩ = .error .attributeError
      ∧ Processor.get_aggregations_to_keep "H" ⟨2024, 3, 15, 14⟩
          = .error .attributeError :=
  C8_invalid_granularity_fails "H" ⟨2024, 3, 15, 14⟩ (by decide)

/-! ## Claim C9: cursor monotonicity -/

/-- Counterexample to claim C9 as stated: `process_tick` performs no
ordering check, so a tick carrying an earlier period rewinds
`current_period` (here from 2024-03-15 10:00 back to 07:00) outside of any
restart reconciliation. -/
theorem C9_cursor_rewind_counterexample :
    ((Processor.process_tick (ProcState.init [] ⟨2024, 3, 15, 10⟩)
        ⟨2024, 3, 15, 7⟩).2.1.current_period = ⟨2024, 3, 15, 7⟩)
      ∧ Period.hourIndex ⟨2024, 3, 15, 7⟩
          < Period.hourIndex (ProcState.init [] ⟨2024, 3, 15, 10⟩).current_period := by
  constructor
  · decide
  · decide

/-- Claim C9 as amended: provided the tick source supplies chronologically
non-decreasing periods (which the spec's external clock does), the
`current_period` cursor is non-decreasing across any sequence of
`process_tick` calls; the code itself never rewinds it in that case. -/
theorem C9_cursor_monotone (st : ProcState) (ps : List Period)
    (h : List.Chain' (fun a b => a.hourIndex ≤ b.hourIndex)
      (st.current_period :: ps)) :
    List.Chain' (fun a b => a.hourIndex ≤ b.hourIndex)
      (st.current_period :: cursorsAfter st ps) := by
  induction ps generalizing st with
  | nil => simp [cursorsAfter]
  | cons p rest ih =>
    rw [List.chain'_cons] at h
    obtain ⟨h1, h2⟩ := h
    show List.Chain' _ (st.current_period
      :: (Processor.process_tick st p).2.1.current_period
      :: cursorsAfter (Processor.process_tick st p).2.1 rest)
    rcases tick_cursor st p with hc | ⟨hst, hcp⟩
    · rw [List.chain'_cons]
      refine ⟨by rw [hc]; exact h1, ?_⟩
      have := ih (Processor.process_tick st p).2.1 (by rw [hc]; exact h2)
      rw [hc] at this ⊢
      exact this
    · rw [hst, List.chain'_cons]
      refine ⟨le_refl _, ?_⟩
      exact ih st (by rw [hcp]; exact h2)

/-- Witness for the amended C9 at a concrete state and tick sequence. -/
theorem C9_cursor_monotone_witness :
    List.Chain' (fun a b => Period.hourIndex a ≤ Period.hourIndex b)
      ((ProcState.init [] ⟨2024, 3, 15, 10⟩).current_period
        :: cursorsAfter (ProcState.init [] ⟨2024, 3, 15, 10⟩)
            [⟨2024, 3, 15, 11⟩, ⟨2024, 3, 16, 0⟩]) :=
  C9_cursor_monotone (ProcState.init [] ⟨2024, 3, 15, 10⟩)
    [⟨2024, 3, 15, 11⟩, ⟨2024, 3, 16, 0⟩]
    (List.chain'_cons.mpr ⟨by decide,
      List.chain'_cons.mpr ⟨by decide, List.chain'_singleton _⟩⟩)

/-! ## Claim C5: restore_from_db semantics -/

/-- Claim C5: with no persisted last-period marker, `restore_from_db` does
nothing; with a marker, it replays daily/weekly/monthly recomputation for
every KPI with the persisted period as reference exactly when that period
differs from the in-memory cursor, additionally replays the yearly
recomputation exactly when the persisted period's day label differs from
`current_day`, and in no case modifies the processor state (in particular
it never advances `current_period`). -/
theorem C5_restore_from_db_semantics (st : ProcState) (lp : Period) :
    Processor.restore_from_db st none = (st, [])
      ∧ (Processor.restore_from_db st (some lp)).1 = st
      ∧ (lp ≠ st.current_period → st.current_day = lp.truncD →
          (Processor.restore_from_db st (some lp)).2 = dwmEvents st.kpis lp)
      ∧ (lp ≠ st.current_period → st.current_day ≠ lp.truncD →
          (Processor.restore_from_db st (some lp)).2
            = dwmEvents st.kpis lp ++ yEvents st.kpis lp)
      ∧ (lp = st.current_period → st.current_day ≠ lp.truncD →
          (Processor.restore_from_db st (some lp)).2 = yEvents st.kpis lp)
      ∧ (lp = st.current_period → st.current_day = lp.truncD →
          (Processor.restore_from_db st (some lp)).2 = []) := by
  refine ⟨rfl, rfl, ?_, ?_, ?_, ?_⟩
  · intro h1 h2
    simp [Processor.restore_from_db, h1, h2]
  · intro h1 h2
    simp [Processor.restore_from_db, h1, h2]
  · intro h1 h2
    subst h1
    simp [Processor.restore_from_db, h2]
  · intro h1 h2
    subst h1
    simp [Processor.restore_from_db, h2]

/-- Witness for C5: a restore that replays both the daily/weekly/monthly
and the yearly recomputation. -/
theorem C5_restore_from_db_semantics_witness :
    (Processor.restore_from_db (ProcState.init [] ⟨2024, 3, 15, 10⟩)
        (some ⟨2024, 3, 16, 2⟩)).2
      = dwmEvents (ProcState.init [] ⟨2024, 3, 15, 10⟩).kpis ⟨2024, 3, 16, 2⟩
        ++ yEvents (ProcState.init [] ⟨2024, 3, 15, 10⟩).kpis ⟨2024, 3, 16, 2⟩ :=
  (C5_restore_from_db_semantics (ProcState.init [] ⟨2024, 3, 15, 10⟩)
    ⟨2024, 3, 16, 2⟩).2.2.2.1 (by decide) (by decide)

/-! ## Trace bookkeeping for the gating claims -/

/-- The daily/weekly/monthly trace of one tick contains no yearly
invocation. -/
theorem dwmEvents_filter_y (ks : List Kpi) (ref : Period) :
    (dwmEvents ks ref).filter (fun e => e.agg_kind = "Y") = [] := by
  induction ks with
  | nil => rfl
  | cons k rest ih => simpa [dwmEvents, List.filter_append] using ih

/-- The yearly trace of one tick consists only of yearly invocations. -/
theorem yEvents_filter_y (ks : List Kpi) (ref : Period) :
    (yEvents ks ref).filter (fun e => e.agg_kind = "Y") = yEvents ks ref := by
  induction ks with
  | nil => rfl
  | cons k rest ih => simp [yEvents] at ih ⊢

/-- Unfolding of the daily/weekly/monthly trace over one more KPI. -/
theorem dwmEvents_cons (k : Kpi) (rest : List Kpi) (ref : Period) :
    dwmEvents (k :: rest) ref =
      ⟨k.unique_id, "D", ref⟩ :: ⟨k.unique_id, "W", ref⟩
        :: ⟨k.unique_id, "M", ref⟩ :: dwmEvents rest ref := by
  simp [dwmEvents]

/-- Unfolding of the yearly trace over one more KPI. -/
theorem yEvents_cons (k : Kpi) (rest : List Kpi) (ref : Period) :
    yEvents (k :: rest) ref = ⟨k.unique_id, "Y", ref⟩ :: yEvents rest ref := by
  simp [yEvents]

/-- Counting daily invocations in the daily/weekly/monthly trace: one per
KPI. -/
theorem dwmEvents_countP_d (ks : List Kpi) (ref : Period) :
    (dwmEvents ks ref).countP (fun e => e.agg_kind = "D") = ks.length := by
  induction ks with
  | nil => rfl
  | cons k rest ih =>
    rw [dwmEvents_cons]
    simp only [List.countP_cons, ih, List.length_cons]
    simp

/-- Counting weekly invocations in the daily/weekly/monthly trace: one per
KPI. -/
theorem dwmEvents_countP_w (ks : List Kpi) (ref : Period) :
    (dwmEvents ks ref).countP (fun e => e.agg_kind = "W") = ks.length := by
  induction ks with
  | nil => rfl
  | cons k rest ih =>
    rw [dwmEvents_cons]
    simp only [List.countP_cons, ih, List.length_cons]
    simp

/-- Counting monthly invocations in the daily/weekly/monthly trace: one per
KPI. -/
theorem dwmEvents_countP_m (ks : List Kpi) (ref : Period) :
    (dwmEvents ks ref).countP (fun e => e.agg_kind = "M") = ks.length := by
  induction ks with
  | nil => rfl
  | cons k rest ih =>
    rw [dwmEvents_cons]
    simp only [List.countP_cons, ih, List.length_cons]
    simp

/-- Counting yearly invocations in the daily/weekly/monthly trace: none. -/
theorem dwmEvents_countP_y (ks : List Kpi) (ref : Period) :
    (dwmEvents ks ref).countP (fun e => e.agg_kind = "Y") = 0 := by
  induction ks with
  | nil => rfl
  | cons k rest ih =>
    rw [dwmEvents_cons]
    simp only [List.countP_cons, ih]
    simp

/-- Counting yearly invocations in the yearly trace: one per KPI. -/
theorem yEvents_countP_y (ks : List Kpi) (ref : Period) :
    (yEvents ks ref).countP (fun e => e.agg_kind = "Y") = ks.length := by
  induction ks with
  | nil => rfl
  | cons k rest ih =>
    rw [yEvents_cons]
    simp only [List.countP_cons, ih, List.length_cons]
    simp

/-- Counting non-yearly invocations in the yearly trace: none. -/
theorem yEvents_countP_ne (ks : List Kpi) (ref : Period) (g : String)
    (hg : g ≠ "Y") :
    (yEvents ks ref).countP (fun e => e.agg_kind = g) = 0 := by
  induction ks with
  | nil => rfl
  | cons k rest ih =>
    rw [yEvents_cons]
    simp only [List.countP_cons, ih]
    simp [Ne.symm hg]

/-! ## Claim C10: the yearly recompute reference is the pre-advance period -/

/-- Claim C10: on a tick that crosses a day boundary, every yearly
recomputation invocation carries the pre-advance period (the old
`current_period`) as its reference while the cursor advances to `now`;
consequently, in the concrete year-crossing scenario, the tick entering
2025 recomputes the 2024 yearly bucket (references truncate to year 2024),
and the first yearly invocation referencing 2025 only happens at the next
day-rollover tick. -/
theorem C10_yearly_ref_preadvance (st : ProcState) (now : Period)
    (h : st.current_period ≠ now) (hd : st.current_day ≠ now.truncD) :
    ((Processor.process_tick st now).2.2.filter (fun e => e.agg_kind = "Y")
        = yEvents st.kpis st.current_period)
      ∧ (Processor.process_tick st now).2.1.current_period = now
      ∧ ((Processor.process_tick (ProcState.init [⟨1, fun _ _ _ => 0⟩]
            ⟨2024, 12, 31, 23⟩) ⟨2025, 1, 1, 0⟩).2.2.filter
              (fun e => e.agg_kind = "Y")).map (fun e => e.ref.truncY)
          = [.yearL 2024]
      ∧ ((Processor.process_tick (Processor.process_tick
            (ProcState.init [⟨1, fun _ _ _ => 0⟩] ⟨2024, 12, 31, 23⟩)
              ⟨2025, 1, 1, 0⟩).2.1 ⟨2025, 1, 2, 0⟩).2.2.filter
                (fun e => e.agg_kind = "Y")).map (fun e => e.ref.truncY)
          = [.yearL 2025] := by
  refine ⟨?_, ?_, by decide, by decide⟩
  · rw [tick_advance_newday st now h hd]
    simp only [List.filter_append, dwmEvents_filter_y, yEvents_filter_y,
      List.nil_append]
  · rw [tick_advance_newday st now h hd]

/-- Witness for C10 at a concrete day-crossing tick. -/
theorem C10_yearly_ref_preadvance_witness :
    (Processor.process_tick (ProcState.init [] ⟨2024, 3, 15, 10⟩)
        ⟨2024, 3, 16, 0⟩).2.2.filter (fun e => e.agg_kind = "Y")
      = yEvents (ProcState.init [] ⟨2024, 3, 15, 10⟩).kpis
          (ProcState.init [] ⟨2024, 3, 15, 10⟩).current_period :=
  (C10_yearly_ref_preadvance (ProcState.init [] ⟨2024, 3, 15, 10⟩)
    ⟨2024, 3, 16, 0⟩ (by decide) (by decide)).1

/-! ## Claim C4: yearly recomputation is gated to once per day -/

/-- Steady phase of a same-day tick sequence: when the processor's
`current_day` already equals the common day of all remaining ticks, every
tick advances (consecutive periods differ) and emits exactly one
daily/weekly/monthly invocation per KPI and no yearly invocation. -/
theorem run_same_day (X : Label) (kpis : List Kpi) (ps : List Period) :
    ∀ st : ProcState, st.kpis = kpis → st.current_day = X →
      (∀ p ∈ ps, p.truncD = X) →
      List.Chain' (fun a b => a ≠ b) (st.current_period :: ps) →
      (runTicks st ps).2.map Prod.fst = List.replicate ps.length true
        ∧ ∀ pr ∈ (runTicks st ps).2,
            pr.2.countP (fun e => e.agg_kind = "D") = kpis.length
          ∧ pr.2.countP (fun e => e.agg_kind = "W") = kpis.length
          ∧ pr.2.countP (fun e => e.agg_kind = "M") = kpis.length
          ∧ pr.2.countP (fun e => e.agg_kind = "Y") = 0 := by
  induction ps with
  | nil =>
    intro st _ _ _ _
    exact ⟨rfl, by simp [runTicks]⟩
  | cons p rest ih =>
    intro st hk hd hall hchain
    rw [List.chain'_cons] at hchain
    obtain ⟨h1, h2⟩ := hchain
    have hdp : st.current_day = p.truncD := by
      rw [hd]
      exact (hall p (by simp)).symm
    have htick := tick_advance_sameday st p h1 hdp
    have hrest := ih ⟨st.kpis, p, st.current_day⟩ hk hd
      (fun q hq => hall q (by simp [hq]))
      (by exact h2)
    simp only [runTicks, htick]
    refine ⟨?_, ?_⟩
    · simp only [List.map_cons, hrest.1, List.length_cons,
        List.replicate_succ]
    · intro pr hpr
      rcases List.mem_cons.mp hpr with hh | hh
      · subst hh
        rw [hk]
        exact ⟨dwmEvents_countP_d kpis st.current_period,
          dwmEvents_countP_w kpis st.current_period,
          dwmEvents_countP_m kpis st.current_period,
          dwmEvents_countP_y kpis st.current_period⟩
      · exact hrest.2 pr hh

/-- Claim C4: over a nonempty sequence of ticks whose periods all lie in
one calendar day `X` (with consecutive periods distinct, as hourly ticks
are), started from a reachable state whose day differs from `X` (so the
first tick is the day-rollover into `X`), every tick reports an update and
issues exactly one daily, one weekly and one monthly recomputation per KPI,
while the yearly recomputation runs exactly once: the first tick issues one
yearly invocation per KPI and every later tick issues none. -/
theorem C4_yearly_gated_once_per_day (st : ProcState) (X : Label)
    (ps : List Period)
    (hreach : st.current_day = st.current_period.truncD)
    (hall : ∀ p ∈ ps, p.truncD = X)
    (hX : st.current_day ≠ X)
    (hchain : List.Chain' (fun a b => a ≠ b) ps)
    (hne : ps ≠ []) :
    (runTicks st ps).2.map Prod.fst = List.replicate ps.length true
      ∧ (∀ pr ∈ (runTicks st ps).2,
            pr.2.countP (fun e => e.agg_kind = "D") = st.kpis.length
          ∧ pr.2.countP (fun e => e.agg_kind = "W") = st.kpis.length
          ∧ pr.2.countP (fun e => e.agg_kind = "M") = st.kpis.length)
      ∧ (runTicks st ps).2.head?.map
            (fun pr => pr.2.countP (fun e => e.agg_kind = "Y"))
          = some st.kpis.length
      ∧ (∀ pr ∈ (runTicks st ps).2.tail,
          pr.2.countP (fun e => e.agg_kind = "Y") = 0) := by
  match ps, hne with
  | p :: rest, _ =>
    have hpX : p.truncD = X := hall p (by simp)
    have hcp : st.current_period ≠ p := by
      intro hEq
      exact hX (by rw [hreach, hEq, hpX])
    have hcd : st.current_day ≠ p.truncD := by rw [hpX]; exact hX
    have htick := tick_advance_newday st p hcp hcd
    have hrest := run_same_day X st.kpis rest ⟨st.kpis, p, p.truncD⟩ rfl
      (by rw [hpX])
      (fun q hq => hall q (by simp [hq]))
      (by exact hchain)
    simp only [runTicks, htick]
    refine ⟨?_, ?_, ?_, ?_⟩
    · simp only [List.map_cons, hrest.1, List.length_cons,
        List.replicate_succ]
    · intro pr hpr
      rcases List.mem_cons.mp hpr with hh | hh
      · subst hh
        refine ⟨?_, ?_, ?_⟩
        · simp [List.countP_append, dwmEvents_countP_d,
            yEvents_countP_ne st.kpis st.current_period "D" (by decide)]
        · simp [List.countP_append, dwmEvents_countP_w,
            yEvents_countP_ne st.kpis st.current_period "W" (by decide)]
        · simp [List.countP_append, dwmEvents_countP_m,
            yEvents_countP_ne st.kpis st.current_period "M" (by decide)]
      · obtain ⟨hd', hw', hm', -⟩ := hrest.2 pr hh
        exact ⟨hd', hw', hm'⟩
    · simp [List.countP_append, dwmEvents_countP_y, yEvents_countP_y]
    · intro pr hpr
      exact (hrest.2 pr (by simpa using hpr)).2.2.2

/-- Witness for C4: one KPI, a state late on 2024-03-14, and two ticks in
2024-03-15; the hypotheses are discharged concretely. -/
theorem C4_yearly_gated_once_per_day_witness :
    (runTicks (ProcState.init [⟨1, fun _ _ _ => 0⟩] ⟨2024, 3, 14, 23⟩)
        [⟨2024, 3, 15, 0⟩, ⟨2024, 3, 15, 1⟩]).2.head?.map
          (fun pr => pr.2.countP (fun e => e.agg_kind = "Y"))
      = some (ProcState.init [⟨1, fun _ _ _ => 0⟩] ⟨2024, 3, 14, 23⟩).kpis.length :=
  (C4_yearly_gated_once_per_day
    (ProcState.init [⟨1, fun _ _ _ => 0⟩] ⟨2024, 3, 14, 23⟩)
    (Label.dayL 2024 3 15) [⟨2024, 3, 15, 0⟩, ⟨2024, 3, 15, 1⟩]
    rfl (by decide) (by decide)
    (List.chain'_cons.mpr ⟨by decide, List.chain'_singleton _⟩)
    (by decide)).2.2.1

/-! ## Properties of one scan iteration -/

/-- Updating a row never changes its bucket label. -/
theorem updCurrent_label (c : Label) (nv : Int) (r : Value) :
    (updCurrent c nv r).agg_value = r.agg_value := by
  unfold updCurrent
  split <;> rfl

/-- The `value_updated` flag after one iteration: set exactly when the
snapshot element carries the current bucket label. -/
theorem scanStep_snd (c : Label) (keep : Option (List Label)) (nv : Int)
    (acc : DbSlice × Bool) (v : Value) :
    (scanStep c keep nv acc v).2 = if v.agg_value = c then true else acc.2 := by
  simp only [scanStep]
  split <;> rfl

/-- The database after one iteration is `stepDb` of the database before. -/
theorem scanStep_fst (c : Label) (keep : Option (List Label)) (nv : Int)
    (acc : DbSlice × Bool) (v : Value) :
    (scanStep c keep nv acc v).1 = stepDb c keep nv acc.1 v := by
  simp only [scanStep, stepDb]
  split <;> rfl

/-- Rows present after one iteration had their label present before. -/
theorem stepDb_labels_sub (c : Label) (keep : Option (List Label)) (nv : Int)
    (db : DbSlice) (v : Value) :
    ∀ r ∈ stepDb c keep nv db v,
      r.agg_value ∈ db.map (fun x => x.agg_value) := by
  have hsub : ∀ x : Value,
      (x ∈ if keepDelete keep v.agg_value then
          db.filter (fun y => y.agg_value ≠ v.agg_value) else db) → x ∈ db := by
    intro x hx
    split at hx
    · exact (List.mem_filter.mp hx).1
    · exact hx
  intro r hr
  rw [stepDb] at hr
  split at hr
  · obtain ⟨r0, hr0, hup⟩ := List.mem_map.mp hr
    rw [← hup, updCurrent_label]
    exact List.mem_map.mpr ⟨r0, hsub r0 hr0, rfl⟩
  · exact List.mem_map.mpr ⟨r, hsub r hr, rfl⟩

/-- When the iteration's snapshot element is slated for deletion, no row
with its label survives the iteration. -/
theorem stepDb_deleted (c : Label) (keep : Option (List Label)) (nv : Int)
    (db : DbSlice) (v : Value) (hd : keepDelete keep v.agg_value = true) :
    ∀ r ∈ stepDb c keep nv db v, r.agg_value ≠ v.agg_value := by
  intro r hr
  rw [stepDb, hd, if_pos rfl] at hr
  split at hr
  · obtain ⟨r0, hr0, hup⟩ := List.mem_map.mp hr
    have := (List.mem_filter.mp hr0).2
    rw [← hup, updCurrent_label]
    simpa using this
  · have := (List.mem_filter.mp hr).2
    simpa using this

/-- One iteration only filters and relabels-preservingly rewrites rows, so
pairwise-distinct labels stay pairwise distinct. -/
theorem stepDb_nodup (c : Label) (keep : Option (List Label)) (nv : Int)
    (db : DbSlice) (v : Value)
    (h : (db.map (fun r => r.agg_value)).Nodup) :
    ((stepDb c keep nv db v).map (fun r => r.agg_value)).Nodup := by
  have h1 : ((if keepDelete keep v.agg_value then
      db.filter (fun y => y.agg_value ≠ v.agg_value) else db).map
        (fun r => r.agg_value)).Nodup := by
    split
    · exact ((List.filter_sublist db).map (fun r => r.agg_value)).nodup h
    · exact h
  rw [stepDb]
  split
  · rw [List.map_map]
    have h2 : List.map ((fun r => r.agg_value) ∘ updCurrent c nv)
        (if keepDelete keep v.agg_value then
          db.filter (fun y => y.agg_value ≠ v.agg_value) else db)
        = List.map (fun r => r.agg_value)
        (if keepDelete keep v.agg_value then
          db.filter (fun y => y.agg_value ≠ v.agg_value) else db) :=
      List.map_congr_left (fun a _ => updCurrent_label c nv a)
    rw [h2]
    exact h1
  · exact h1

/-- One iteration never changes how many rows carry the current bucket
label, as long as that label is not itself slated for deletion. -/
theorem stepDb_countP_current (c : Label) (keep : Option (List Label))
    (nv : Int) (db : DbSlice) (v : Value)
    (hc : keepDelete keep c = false) :
    (stepDb c keep nv db v).countP (fun r => r.agg_value = c)
      = db.countP (fun r => r.agg_value = c) := by
  have h1 : (if keepDelete keep v.agg_value then
        db.filter (fun y => y.agg_value ≠ v.agg_value) else db).countP
          (fun r => r.agg_value = c)
      = db.countP (fun r => r.agg_value = c) := by
    split
    · next hkd =>
      have hvc : v.agg_value ≠ c := by
        intro hEq
        rw [hEq, hc] at hkd
        exact Bool.false_ne_true hkd
      rw [List.countP_filter]
      refine List.countP_congr (fun x _ => ?_)
      constructor
      · intro hx
        simpa using (Bool.and_elim_left hx)
      · intro hx
        have hxc : x.agg_value = c := by simpa using hx
        simp [hxc, Ne.symm hvc]
    · rfl
  rw [stepDb]
  split
  · rw [List.countP_map]
    have h2 : ((if keepDelete keep v.agg_value then
        db.filter (fun y => y.agg_value ≠ v.agg_value) else db).countP
          ((fun r => decide (r.agg_value = c)) ∘ updCurrent c nv))
        = ((if keepDelete keep v.agg_value then
        db.filter (fun y => y.agg_value ≠ v.agg_value) else db).countP
          (fun r => r.agg_value = c)) := by
      refine List.countP_congr (fun x _ => ?_)
      show (decide ((updCurrent c nv x).agg_value = c) = true)
        ↔ (decide (x.agg_value = c) = true)
      rw [updCurrent_label]
    rw [h2]
    exact h1
  · exact h1

/-- One iteration preserves the fact that every row carrying the current
bucket label already holds the freshly computed value. -/
theorem stepDb_current_val_preserved (c : Label) (keep : Option (List Label))
    (nv : Int) (db : DbSlice) (v : Value)
    (h : ∀ r ∈ db, r.agg_value = c → r.kpi_value = nv) :
    ∀ r ∈ stepDb c keep nv db v, r.agg_value = c → r.kpi_value = nv := by
  have hsub : ∀ x : Value,
      (x ∈ if keepDelete keep v.agg_value then
          db.filter (fun y => y.agg_value ≠ v.agg_value) else db) → x ∈ db := by
    intro x hx
    split at hx
    · exact (List.mem_filter.mp hx).1
    · exact hx
  intro r hr hc
  rw [stepDb] at hr
  split at hr
  · obtain ⟨r0, hr0, hup⟩ := List.mem_map.mp hr
    rw [← hup]
    rw [← hup, updCurrent_label] at hc
    rw [updCurrent, if_pos hc]
  · exact h r (hsub r hr) hc

/-- After an iteration whose snapshot element carries the current bucket
label, every row carrying that label holds the freshly computed value. -/
theorem stepDb_current_val_set (c : Label) (keep : Option (List Label))
    (nv : Int) (db : DbSlice) (v : Value) (hv : v.agg_value = c) :
    ∀ r ∈ stepDb c keep nv db v, r.agg_value = c → r.kpi_value = nv := by
  intro r hr hc
  rw [stepDb, if_pos hv] at hr
  obtain ⟨r0, hr0, hup⟩ := List.mem_map.mp hr
  rw [← hup]
  rw [← hup, updCurrent_label] at hc
  rw [updCurrent, if_pos hc]

/-- An iteration whose snapshot element is kept, over a database where all
current-label rows already hold the fresh value, changes nothing. -/
theorem stepDb_fix (c : Label) (keep : Option (List Label)) (nv : Int)
    (db : DbSlice) (v : Value)
    (hkd : keepDelete keep v.agg_value = false)
    (h : ∀ r ∈ db, r.agg_value = c → r.kpi_value = nv) :
    stepDb c keep nv db v = db := by
  rw [stepDb, hkd]
  simp only [Bool.false_eq_true, if_false]
  split
  · refine Eq.trans (List.map_congr_left (fun r hr => ?_)) (List.map_id db)
    rw [updCurrent]
    split
    · next hrc =>
      have := h r hr hrc
      cases r
      simp_all
    · rfl
  · rfl

/-- When the iteration's snapshot element is not slated for deletion, the
label list is preserved exactly. -/
theorem stepDb_labels_eq (c : Label) (keep : Option (List Label)) (nv : Int)
    (db : DbSlice) (v : Value)
    (hkd : keepDelete keep v.agg_value = false) :
    (stepDb c keep nv db v).map (fun r => r.agg_value)
      = db.map (fun r => r.agg_value) := by
  rw [stepDb, hkd]
  simp only [Bool.false_eq_true, if_false]
  split
  · rw [List.map_map]
    exact List.map_congr_left (fun a _ => updCurrent_label c nv a)
  · rfl

/-! ## Properties of the whole scan -/

/-- The database component of the scan is the fold of `stepDb`. -/
theorem scan_fst (c : Label) (keep : Option (List Label)) (nv : Int)
    (s : DbSlice) : ∀ acc : DbSlice × Bool,
    (s.foldl (scanStep c keep nv) acc).1 = s.foldl (stepDb c keep nv) acc.1 := by
  induction s with
  | nil => intro acc; rfl
  | cons v rest ih =>
    intro acc
    rw [List.foldl_cons, List.foldl_cons, ih, scanStep_fst]

/-- The `value_updated` flag after the scan: set exactly when some snapshot
element carries the current bucket label. -/
theorem scan_snd (c : Label) (keep : Option (List Label)) (nv : Int)
    (s : DbSlice) : ∀ acc : DbSlice × Bool,
    (s.foldl (scanStep c keep nv) acc).2
      = (acc.2 || s.any (fun v => v.agg_value = c)) := by
  induction s with
  | nil => intro acc; simp
  | cons v rest ih =>
    intro acc
    rw [List.foldl_cons, ih, List.any_cons, scanStep_snd]
    by_cases hv : v.agg_value = c
    · simp [hv]
    · simp [hv]

/-- Labels present after the scan were present before. -/
theorem scan_labels_sub (c : Label) (keep : Option (List Label)) (nv : Int)
    (s : DbSlice) : ∀ db : DbSlice,
    ∀ r ∈ s.foldl (stepDb c keep nv) db,
      r.agg_value ∈ db.map (fun x => x.agg_value) := by
  induction s with
  | nil => intro db r hr; exact List.mem_map.mpr ⟨r, hr, rfl⟩
  | cons v rest ih =>
    intro db r hr
    rw [List.foldl_cons] at hr
    obtain ⟨r0, hr0, hlab⟩ := List.mem_map.mp (ih (stepDb c keep nv db v) r hr)
    rw [← hlab]
    exact stepDb_labels_sub c keep nv db v r0 hr0

/-- The scan preserves pairwise-distinct labels. -/
theorem scan_nodup (c : Label) (keep : Option (List Label)) (nv : Int)
    (s : DbSlice) : ∀ db : DbSlice,
    (db.map (fun r => r.agg_value)).Nodup →
    ((s.foldl (stepDb c keep nv) db).map (fun r => r.agg_value)).Nodup := by
  induction s with
  | nil => intro db h; exact h
  | cons v rest ih =>
    intro db h
    rw [List.foldl_cons]
    exact ih _ (stepDb_nodup c keep nv db v h)

/-- The scan preserves the number of rows carrying the current bucket
label, as long as that label is retained. -/
theorem scan_countP_current (c : Label) (keep : Option (List Label))
    (nv : Int) (hc : keepDelete keep c = false) (s : DbSlice) :
    ∀ db : DbSlice,
    (s.foldl (stepDb c keep nv) db).countP (fun r => r.agg_value = c)
      = db.countP (fun r => r.agg_value = c) := by
  induction s with
  | nil => intro db; rfl
  | cons v rest ih =>
    intro db
    rw [List.foldl_cons, ih, stepDb_countP_current c keep nv db v hc]

/-- The scan preserves the fact that all current-label rows hold the fresh
value. -/
theorem scan_current_val_preserved (c : Label) (keep : Option (List Label))
    (nv : Int) (s : DbSlice) : ∀ db : DbSlice,
    (∀ r ∈ db, r.agg_value = c → r.kpi_value = nv) →
    ∀ r ∈ s.foldl (stepDb c keep nv) db,
      r.agg_value = c → r.kpi_value = nv := by
  induction s with
  | nil => intro db h; exact h
  | cons v rest ih =>
    intro db h
    rw [List.foldl_cons]
    exact ih _ (stepDb_current_val_preserved c keep nv db v h)

/-- After a scan whose snapshot contains a current-label element, every
current-label row holds the fresh value. -/
theorem scan_current_val (c : Label) (keep : Option (List Label)) (nv : Int)
    (s : DbSlice) : ∀ db : DbSlice,
    (∃ v ∈ s, v.agg_value = c) →
    ∀ r ∈ s.foldl (stepDb c keep nv) db,
      r.agg_value = c → r.kpi_value = nv := by
  induction s with
  | nil =>
    intro db h
    exact absurd h (by simp)
  | cons v rest ih =>
    intro db h
    rw [List.foldl_cons]
    obtain ⟨w, hw, hwc⟩ := h
    rcases List.mem_cons.mp hw with hh | hh
    · subst hh
      exact scan_current_val_preserved c keep nv rest _
        (stepDb_current_val_set c keep nv db w hwc)
    · exact ih _ ⟨w, hh, hwc⟩

/-- A scan over a snapshot of kept labels, on a database whose
current-label rows already hold the fresh value, changes nothing. -/
theorem scan_fix (c : Label) (keep : Option (List Label)) (nv : Int)
    (s : DbSlice) : ∀ db : DbSlice,
    (∀ v ∈ s, keepDelete keep v.agg_value = false) →
    (∀ r ∈ db, r.agg_value = c → r.kpi_value = nv) →
    s.foldl (stepDb c keep nv) db = db := by
  induction s with
  | nil => intro db _ _; rfl
  | cons v rest ih =>
    intro db hs h
    rw [List.foldl_cons, stepDb_fix c keep nv db v (hs v (by simp)) h]
    exact ih db (fun w hw => hs w (by simp [hw])) h

/-- After scanning the database against its own snapshot, no row slated
for deletion survives. -/
theorem scan_no_bad (c : Label) (keep : Option (List Label)) (nv : Int)
    (s : DbSlice) : ∀ db : DbSlice,
    (∀ r ∈ db, keepDelete keep r.agg_value = true →
      r.agg_value ∈ s.map (fun x => x.agg_value)) →
    ∀ r ∈ s.foldl (stepDb c keep nv) db,
      keepDelete keep r.agg_value = false := by
  induction s with
  | nil =>
    intro db h r hr
    cases hkd : keepDelete keep r.agg_value
    · rfl
    · exact absurd (h r hr hkd) (by simp)
  | cons v rest ih =>
    intro db h r hr
    rw [List.foldl_cons] at hr
    refine ih (stepDb c keep nv db v) ?_ r hr
    intro x hx hbad
    obtain ⟨x0, hx0, hlab⟩ :=
      List.mem_map.mp (stepDb_labels_sub c keep nv db v x hx)
    have hbad0 : keepDelete keep x0.agg_value = true := by
      rw [hlab]; exact hbad
    have hmem := h x0 hx0 hbad0
    rw [List.map_cons] at hmem
    rcases List.mem_cons.mp hmem with hh | hh
    · exfalso
      have hvbad : keepDelete keep v.agg_value = true := by
        rw [← hh]; exact hbad0
      exact stepDb_deleted c keep nv db v hvbad x hx
        (by rw [← hlab]; exact hh)
    · rw [← hlab]
      exact hh

/-- With the keep-all sentinel, the scan preserves the label list exactly
(no row is ever deleted). -/
theorem scan_labels_eq_none (c : Label) (nv : Int) (s : DbSlice) :
    ∀ db : DbSlice,
    (s.foldl (stepDb c none nv) db).map (fun r => r.agg_value)
      = db.map (fun r => r.agg_value) := by
  induction s with
  | nil => intro db; rfl
  | cons v rest ih =>
    intro db
    rw [List.foldl_cons, ih, stepDb_labels_eq c none nv db v rfl]

/-! ## Characterizing a recomputation call -/

/-- Unfolding of `compute_kpi_values_for_aggregation_kind` by the outcomes
of the three resolvers it consults. -/
theorem compute_eq (now : Period) (kpi : Kpi) (g : String) (db : DbSlice) :
    Processor.compute_kpi_values_for_aggregation_kind now kpi g db =
      match now.get_truncated_value g,
          Processor.get_aggregations_to_keep g now,
          Processor.get_timestamps g now with
      | .ok c, .ok keep, .ok ts =>
        if (db.foldl
            (scanStep c keep (kpi.get_value g ts.start ts.stop)) (db, false)).2
        then .ok (db.foldl
            (scanStep c keep (kpi.get_value g ts.start ts.stop)) (db, false)).1
        else .ok ((db.foldl
            (scanStep c keep (kpi.get_value g ts.start ts.stop)) (db, false)).1
          ++ [⟨c, kpi.get_value g ts.start ts.stop⟩])
      | .error e, _, _ => .error e
      | .ok _, .error e, _ => .error e
      | .ok _, .ok _, .error e => .error e := by
  unfold Processor.compute_kpi_values_for_aggregation_kind
  cases now.get_truncated_value g with
  | error e => rfl
  | ok c =>
    cases Processor.get_aggregations_to_keep g now with
    | error e => rfl
    | ok keep =>
      cases Processor.get_timestamps g now with
      | error e => rfl
      | ok ts => rfl

/-- Elimination principle for a successful recomputation call: the three
resolvers succeeded, and the result is the scanned database, plus a newly
created row for the current bucket label exactly when no snapshot row
matched it. -/
theorem compute_ok_elim (now : Period) (kpi : Kpi) (g : String)
    (db db' : DbSlice)
    (h : Processor.compute_kpi_values_for_aggregation_kind now kpi g db
      = .ok db') :
    ∃ c keep ts,
      now.get_truncated_value g = .ok c
      ∧ Processor.get_aggregations_to_keep g now = .ok keep
      ∧ Processor.get_timestamps g now = .ok ts
      ∧ ((db.any (fun v => v.agg_value = c) = true
            ∧ db' = db.foldl
                (stepDb c keep (kpi.get_value g ts.start ts.stop)) db)
        ∨ (db.any (fun v => v.agg_value = c) = false
            ∧ db' = db.foldl
                  (stepDb c keep (kpi.get_value g ts.start ts.stop)) db
                ++ [⟨c, kpi.get_value g ts.start ts.stop⟩])) := by
  rw [compute_eq] at h
  cases hc : now.get_truncated_value g with
  | error e => rw [hc] at h; exact absurd h (by simp)
  | ok c =>
    cases hk : Processor.get_aggregations_to_keep g now with
    | error e => rw [hc, hk] at h; exact absurd h (by simp)
    | ok keep =>
      cases hts : Processor.get_timestamps g now with
      | error e => rw [hc, hk, hts] at h; exact absurd h (by simp)
      | ok ts =>
        rw [hc, hk, hts] at h
        dsimp only at h
        refine ⟨c, keep, ts, rfl, rfl, rfl, ?_⟩
        rw [scan_snd, Bool.false_or] at h
        cases hany : db.any (fun v => v.agg_value = c)
        · right
          rw [hany, if_neg (by simp)] at h
          refine ⟨rfl, ?_⟩
          rw [← scan_fst c keep (kpi.get_value g ts.start ts.stop) db (db, false)]
          exact (Except.ok.injEq _ _ ▸ h).symm
        · left
          rw [hany, if_pos rfl] at h
          refine ⟨rfl, ?_⟩
          rw [← scan_fst c keep (kpi.get_value g ts.start ts.stop) db (db, false)]
          exact (Except.ok.injEq _ _ ▸ h).symm

/-- A label contained in the retained list is never slated for deletion. -/
theorem keepDelete_of_mem (ks : List Label) (c : Label) (h : c ∈ ks) :
    keepDelete (some ks) c = false := by
  show (if ks ≠ [] ∧ c ∉ ks then true else false) = false
  rw [if_neg]
  intro hcon
  exact hcon.2 h

/-- For each of the four supported granularities, the current bucket label
of the reference period is never slated for deletion: the retained label
set contains it (it is the zero-shift element), and the yearly keep-all
sentinel deletes nothing.  Validity of the period is needed for the
monthly zero-shift. -/
theorem keep_not_delete_current (g : String) (now : Period)
    (hg : g = "D" ∨ g = "W" ∨ g = "M" ∨ g = "Y") (hv : now.Valid)
    (c : Label) (keep : Option (List Label))
    (hc : now.get_truncated_value g = .ok c)
    (hk : Processor.get_aggregations_to_keep g now = .ok keep) :
    keepDelete keep c = false := by
  rcases hg with hgg | hgg | hgg | hgg <;> subst hgg
  · simp only [Period.get_truncated_value, if_pos, Except.ok.injEq] at hc
    simp only [Processor.get_aggregations_to_keep, if_pos,
      Except.ok.injEq] at hk
    subst hc
    subst hk
    refine keepDelete_of_mem _ _ ?_
    refine List.mem_map.mpr ⟨0, by decide, ?_⟩
    show (now.shiftDays (-((0 : Nat) : Int))).truncD = now.truncD
    have h0 : (-((0 : Nat) : Int)) = 0 := by norm_num
    rw [h0, Period.shiftDays_zero]
  · simp only [Period.get_truncated_value, if_neg (by decide : ¬ ("W" = "D")),
      if_pos, Except.ok.injEq] at hc
    simp only [Processor.get_aggregations_to_keep,
      if_neg (by decide : ¬ ("W" = "D")), if_pos, Except.ok.injEq] at hk
    subst hc
    subst hk
    refine keepDelete_of_mem _ _ ?_
    refine List.mem_map.mpr ⟨0, by decide, ?_⟩
    show (now.shiftDays (7 * (-((0 : Nat) : Int)))).truncW = now.truncW
    have h0 : (7 : Int) * (-((0 : Nat) : Int)) = 0 := by norm_num
    rw [h0, Period.shiftDays_zero]
  · simp only [Period.get_truncated_value, if_neg (by decide : ¬ ("M" = "D")),
      if_neg (by decide : ¬ ("M" = "W")), if_pos, Except.ok.injEq] at hc
    simp only [Processor.get_aggregations_to_keep,
      if_neg (by decide : ¬ ("M" = "D")), if_neg (by decide : ¬ ("M" = "W")),
      if_pos, Except.ok.injEq] at hk
    subst hc
    subst hk
    refine keepDelete_of_mem _ _ ?_
    refine List.mem_map.mpr ⟨0, by decide, ?_⟩
    show (now.shiftMonths (-((0 : Nat) : Int))).truncM = now.truncM
    have h0 : (-((0 : Nat) : Int)) = 0 := by norm_num
    rw [h0]
    exact Period.truncM_shiftMonths_zero now hv
  · simp only [Processor.get_aggregations_to_keep,
      if_neg (by decide : ¬ ("Y" = "D")), if_neg (by decide : ¬ ("Y" = "W")),
      if_neg (by decide : ¬ ("Y" = "M")), if_pos,
      Except.ok.injEq] at hk
    subst hk
    rfl

/-! ## Helpers for counting rows with a given label -/

/-- With pairwise-distinct labels, a matched label is carried by exactly
one row. -/
theorem countP_label_one (c : Label) (db : DbSlice)
    (hnd : (db.map (fun r => r.agg_value)).Nodup)
    (hmem : db.any (fun v => v.agg_value = c) = true) :
    db.countP (fun r => r.agg_value = c) = 1 := by
  induction db with
  | nil => simp at hmem
  | cons r rest ih =>
    rw [List.map_cons, List.nodup_cons] at hnd
    rw [List.any_cons] at hmem
    rw [List.countP_cons]
    by_cases hr : r.agg_value = c
    · have hzero : rest.countP (fun x => x.agg_value = c) = 0 := by
        rw [List.countP_eq_zero]
        intro a ha hac
        have hac' : a.agg_value = c := by simpa using hac
        exact hnd.1 (List.mem_map.mpr ⟨a, ha, by rw [hac', hr]⟩)
      simp [hzero, hr]
    · have hmem' : rest.any (fun v => v.agg_value = c) = true := by
        rcases Bool.or_eq_true_iff.mp hmem with hh | hh
        · exact absurd (by simpa using hh) hr
        · exact hh
      rw [ih hnd.2 hmem']
      simp [hr]

/-- An unmatched label is carried by no row. -/
theorem countP_label_zero (c : Label) (db : DbSlice)
    (h : db.any (fun v => v.agg_value = c) = false) :
    db.countP (fun r => r.agg_value = c) = 0 := by
  rw [List.countP_eq_zero]
  intro a ha hac
  have htrue : db.any (fun v => v.agg_value = c) = true :=
    List.any_eq_true.mpr ⟨a, ha, hac⟩
  rw [h] at htrue
  exact Bool.false_ne_true htrue

/-! ## Claim C1: bucket uniqueness of the upsert-with-scan -/

/-- Counterexample to claim C1 as stated: when the pre-existing set of
persisted Values contains two rows sharing the current bucket label
(stale duplicate state), a single call to
`compute_kpi_values_for_aggregation_kind` leaves both rows in place — the
scan updates duplicates of the current label but never deletes them, so
two Values for the bucket label 2024-03-15 remain. -/
theorem C1_duplicate_current_label_counterexample :
    Processor.compute_kpi_values_for_aggregation_kind ⟨2024, 3, 15, 14⟩
        ⟨1, fun _ _ _ => 7⟩ "D"
        [⟨.dayL 2024 3 15, 1⟩, ⟨.dayL 2024 3 15, 2⟩]
      = .ok [⟨.dayL 2024 3 15, 7⟩, ⟨.dayL 2024 3 15, 7⟩]
    ∧ ([⟨.dayL 2024 3 15, 7⟩, ⟨.dayL 2024 3 15, 7⟩] : DbSlice).countP
        (fun r => r.agg_value = .dayL 2024 3 15) = 2 := by
  constructor
  · decide
  · decide

/-- Claim C1 as amended: provided the pre-existing set of persisted Values
for (kpi, granularity) carries pairwise-distinct bucket labels (no stale
duplicates), a single successful call leaves at most one Value per bucket
label, exactly one Value carries the current bucket label, no new label is
introduced when an existing Value matched the current label (the match was
updated, not duplicated), and a Value with the current label exists
afterward even when none did before (it was created). -/
theorem C1_bucket_uniqueness_amended (now : Period) (kpi : Kpi) (g : String)
    (db db' : DbSlice)
    (hg : g = "D" ∨ g = "W" ∨ g = "M" ∨ g = "Y")
    (hv : now.Valid)
    (hnd : (db.map (fun r => r.agg_value)).Nodup)
    (h : Processor.compute_kpi_values_for_aggregation_kind now kpi g db
      = .ok db') :
    (db'.map (fun r => r.agg_value)).Nodup
      ∧ ∃ c, now.get_truncated_value g = .ok c
        ∧ db'.countP (fun r => r.agg_value = c) = 1
        ∧ (db.any (fun v => v.agg_value = c) = true →
            ∀ l ∈ db'.map (fun r => r.agg_value),
              l ∈ db.map (fun r => r.agg_value))
        ∧ (db.any (fun v => v.agg_value = c) = false →
            ∃ r ∈ db', r.agg_value = c) := by
  obtain ⟨c, keep, ts, hc, hk, hts, hcase⟩ := compute_ok_elim now kpi g db db' h
  have hkd : keepDelete keep c = false :=
    keep_not_delete_current g now hg hv c keep hc hk
  rcases hcase with ⟨hany, hdb⟩ | ⟨hany, hdb⟩
  · subst hdb
    refine ⟨scan_nodup c keep _ db db hnd, c, hc, ?_, ?_, ?_⟩
    · rw [scan_countP_current c keep _ hkd db db]
      exact countP_label_one c db hnd hany
    · intro _ l hl
      obtain ⟨r, hr, hlab⟩ := List.mem_map.mp hl
      rw [← hlab]
      exact scan_labels_sub c keep _ db db r hr
    · intro hfalse
      rw [hany] at hfalse
      exact absurd hfalse (by simp)
  · subst hdb
    constructor
    · rw [List.map_append, List.nodup_append]
      refine ⟨scan_nodup c keep _ db db hnd, by simp, ?_⟩
      intro l hl hlc
      have hlc' : l = c := by simpa using hlc
      rw [hlc'] at hl
      obtain ⟨r, hr, hlab⟩ := List.mem_map.mp hl
      have hlm := scan_labels_sub c keep _ db db r hr
      rw [hlab] at hlm
      obtain ⟨r0, hr0, hr0c⟩ := List.mem_map.mp hlm
      have htrue : db.any (fun v => v.agg_value = c) = true :=
        List.any_eq_true.mpr ⟨r0, hr0, by simpa using hr0c⟩
      rw [hany] at htrue
      exact Bool.false_ne_true htrue
    · refine ⟨c, hc, ?_, ?_, ?_⟩
      · rw [List.countP_append, scan_countP_current c keep _ hkd db db,
          countP_label_zero c db hany]
        simp
      · intro htrue
        rw [hany] at htrue
        exact absurd htrue (by simp)
      · intro _
        exact ⟨⟨c, kpi.get_value g ts.start ts.stop⟩,
          List.mem_append.mpr (Or.inr (by simp)), rfl⟩

/-- Witness for the amended C1: a fresh daily bucket is created next to a
retained previous-day Value, all labels distinct. -/
theorem C1_bucket_uniqueness_amended_witness :
    (([⟨.dayL 2024 3 14, 5⟩, ⟨.dayL 2024 3 15, 7⟩] : DbSlice).map
        (fun r => r.agg_value)).Nodup
      ∧ ∃ c, Period.get_truncated_value ⟨2024, 3, 15, 14⟩ "D" = .ok c
        ∧ ([⟨.dayL 2024 3 14, 5⟩, ⟨.dayL 2024 3 15, 7⟩] : DbSlice).countP
            (fun r => r.agg_value = c) = 1
        ∧ (([⟨.dayL 2024 3 14, 5⟩] : DbSlice).any
              (fun v => v.agg_value = c) = true →
            ∀ l ∈ ([⟨.dayL 2024 3 14, 5⟩, ⟨.dayL 2024 3 15, 7⟩] :
                DbSlice).map (fun r => r.agg_value),
              l ∈ ([⟨.dayL 2024 3 14, 5⟩] : DbSlice).map
                (fun r => r.agg_value))
        ∧ (([⟨.dayL 2024 3 14, 5⟩] : DbSlice).any
              (fun v => v.agg_value = c) = false →
            ∃ r ∈ ([⟨.dayL 2024 3 14, 5⟩, ⟨.dayL 2024 3 15, 7⟩] : DbSlice),
              r.agg_value = c) :=
  C1_bucket_uniqueness_amended ⟨2024, 3, 15, 14⟩ ⟨1, fun _ _ _ => 7⟩ "D"
    [⟨.dayL 2024 3 14, 5⟩] [⟨.dayL 2024 3 14, 5⟩, ⟨.dayL 2024 3 15, 7⟩]
    (Or.inl rfl) (by decide) (by decide) (by decide)

/-! ## Claim C7: recomputation is idempotent -/

/-- Claim C7: a second call to `compute_kpi_values_for_aggregation_kind`
with the same reference period, KPI and granularity, on the state a first
successful call produced (and with the KPI computation a pure function of
its arguments, so unchanged raw data gives the same number), returns the
same persisted state: the Value for the current bucket carries an
unchanged numeric result and no duplicate row is introduced. -/
theorem C7_recompute_idempotent (now : Period) (kpi : Kpi) (g : String)
    (db db1 : DbSlice)
    (hg : g = "D" ∨ g = "W" ∨ g = "M" ∨ g = "Y")
    (hv : now.Valid)
    (h : Processor.compute_kpi_values_for_aggregation_kind now kpi g db
      = .ok db1) :
    Processor.compute_kpi_values_for_aggregation_kind now kpi g db1
      = .ok db1 := by
  obtain ⟨c, keep, ts, hc, hk, hts, hcase⟩ := compute_ok_elim now kpi g db db1 h
  have hkd : keepDelete keep c = false :=
    keep_not_delete_current g now hg hv c keep hc hk
  have hgood : ∀ v ∈ db1, keepDelete keep v.agg_value = false := by
    have hscan := scan_no_bad c keep (kpi.get_value g ts.start ts.stop) db db
      (fun r hr _ => List.mem_map.mpr ⟨r, hr, rfl⟩)
    rcases hcase with ⟨-, hdb⟩ | ⟨-, hdb⟩ <;> subst hdb
    · exact hscan
    · intro v hv'
      rcases List.mem_append.mp hv' with hh | hh
      · exact hscan v hh
      · have hvv : v = ⟨c, kpi.get_value g ts.start ts.stop⟩ := by
          simpa using hh
        rw [hvv]
        exact hkd
  have hval : ∀ r ∈ db1, r.agg_value = c →
      r.kpi_value = kpi.get_value g ts.start ts.stop := by
    rcases hcase with ⟨hany, hdb⟩ | ⟨hany, hdb⟩ <;> subst hdb
    · refine scan_current_val c keep _ db db ?_
      obtain ⟨a, ha, hac⟩ := List.any_eq_true.mp hany
      exact ⟨a, ha, by simpa using hac⟩
    · intro r hr hrc
      rcases List.mem_append.mp hr with hh | hh
      · exfalso
        have hlm := scan_labels_sub c keep _ db db r hh
        rw [hrc] at hlm
        obtain ⟨r0, hr0, hr0c⟩ := List.mem_map.mp hlm
        have htrue : db.any (fun v => v.agg_value = c) = true :=
          List.any_eq_true.mpr ⟨r0, hr0, by simpa using hr0c⟩
        rw [hany] at htrue
        exact Bool.false_ne_true htrue
      · have hrr : r = ⟨c, kpi.get_value g ts.start ts.stop⟩ := by
          simpa using hh
        rw [hrr]
  have hhas : db1.any (fun v => v.agg_value = c) = true := by
    rcases hcase with ⟨hany, hdb⟩ | ⟨hany, hdb⟩ <;> subst hdb
    · have h1 := scan_countP_current c keep
        (kpi.get_value g ts.start ts.stop) hkd db db
      have h2 : 0 < db.countP (fun r => r.agg_value = c) := by
        rw [List.countP_pos_iff]
        obtain ⟨a, ha, hac⟩ := List.any_eq_true.mp hany
        exact ⟨a, ha, hac⟩
      rw [← h1] at h2
      obtain ⟨a, ha, hac⟩ := List.countP_pos_iff.mp h2
      exact List.any_eq_true.mpr ⟨a, ha, hac⟩
    · refine List.any_eq_true.mpr
        ⟨⟨c, kpi.get_value g ts.start ts.stop⟩,
          List.mem_append.mpr (Or.inr (by simp)), by simp⟩
  rw [compute_eq, hc, hk, hts]
  dsimp only
  rw [scan_snd, Bool.false_or, hhas, if_pos rfl,
    scan_fst c keep (kpi.get_value g ts.start ts.stop) db1 (db1, false),
    scan_fix c keep (kpi.get_value g ts.start ts.stop) db1 db1 hgood hval]

/-- Witness for C7: the second daily recomputation leaves the freshly
created bucket Value unchanged. -/
theorem C7_recompute_idempotent_witness :
    Processor.compute_kpi_values_for_aggregation_kind ⟨2024, 3, 15, 14⟩
        ⟨1, fun _ _ _ => 7⟩ "D" [⟨.dayL 2024 3 15, 7⟩]
      = .ok [⟨.dayL 2024 3 15, 7⟩] :=
  C7_recompute_idempotent ⟨2024, 3, 15, 14⟩ ⟨1, fun _ _ _ => 7⟩ "D"
    [] [⟨.dayL 2024 3 15, 7⟩] (Or.inl rfl) (by decide) (by decide)

/-! ## Claim C3: retention sets per granularity -/

/-- Claim C3: the retention resolver returns exactly the 7 day labels
obtained by shifting the reference back 0..6 days for Daily, exactly the 4
week labels (0..3 weeks back) for Weekly, exactly the 12 month labels
(0..11 months back) for Monthly, and the keep-all sentinel (`None`) for
Yearly, under which a yearly recomputation never deletes a Value: every
label present before a yearly call is still present after it (the call at
most appends the current year's label). -/
theorem C3_retention_sets (now : Period) (kpi : Kpi) (db db' : DbSlice)
    (h : Processor.compute_kpi_values_for_aggregation_kind now kpi "Y" db
      = .ok db') :
    Processor.get_aggregations_to_keep "D" now
        = .ok (some ((List.range 7).map fun (delta : Nat) =>
            (now.get_shifted (.days (-(delta : Int)))).truncD))
      ∧ ((List.range 7).map fun (delta : Nat) =>
          (now.get_shifted (.days (-(delta : Int)))).truncD).length = 7
      ∧ Processor.get_aggregations_to_keep "W" now
          = .ok (some ((List.range 4).map fun (delta : Nat) =>
              (now.get_shifted (.weeks (-(delta : Int)))).truncW))
      ∧ ((List.range 4).map fun (delta : Nat) =>
          (now.get_shifted (.weeks (-(delta : Int)))).truncW).length = 4
      ∧ Processor.get_aggregations_to_keep "M" now
          = .ok (some ((List.range 12).map fun (delta : Nat) =>
              (now.get_shifted (.months (-(delta : Int)))).truncM))
      ∧ ((List.range 12).map fun (delta : Nat) =>
          (now.get_shifted (.months (-(delta : Int)))).truncM).length = 12
      ∧ Processor.get_aggregations_to_keep "Y" now = .ok none
      ∧ (db'.map (fun r => r.agg_value) = db.map (fun r => r.agg_value)
          ∨ db'.map (fun r => r.agg_value)
              = db.map (fun r => r.agg_value) ++ [now.truncY]) := by
  refine ⟨rfl, by rw [List.length_map, List.length_range], rfl,
    by rw [List.length_map, List.length_range], rfl,
    by rw [List.length_map, List.length_range], rfl, ?_⟩
  obtain ⟨c, keep, ts, hc, hk, hts, hcase⟩ :=
    compute_ok_elim now kpi "Y" db db' h
  have hcY : c = now.truncY := by
    simp only [Period.get_truncated_value,
      if_neg (by decide : ¬ ("Y" = "D")), if_neg (by decide : ¬ ("Y" = "W")),
      if_neg (by decide : ¬ ("Y" = "M")), if_pos, Except.ok.injEq] at hc
    exact hc.symm
  have hkY : keep = none := by
    simp only [Processor.get_aggregations_to_keep,
      if_neg (by decide : ¬ ("Y" = "D")), if_neg (by decide : ¬ ("Y" = "W")),
      if_neg (by decide : ¬ ("Y" = "M")), if_pos, Except.ok.injEq] at hk
    exact hk.symm
  subst hkY
  rcases hcase with ⟨-, hdb⟩ | ⟨-, hdb⟩ <;> subst hdb
  · left
    exact scan_labels_eq_none c _ db db
  · right
    rw [List.map_append, scan_labels_eq_none c _ db db, hcY]
    rfl

/-- Witness for C3 at a concrete period and a yearly recomputation that
keeps the 2023 Value and creates the 2024 one. -/
theorem C3_retention_sets_witness :
    Processor.get_aggregations_to_keep "Y" ⟨2024, 3, 15, 14⟩ = .ok none
      ∧ (([⟨.yearL 2023, 4⟩, ⟨.yearL 2024, 7⟩] : DbSlice).map
            (fun r => r.agg_value)
          = ([⟨.yearL 2023, 4⟩] : DbSlice).map (fun r => r.agg_value)
        ∨ ([⟨.yearL 2023, 4⟩, ⟨.yearL 2024, 7⟩] : DbSlice).map
            (fun r => r.agg_value)
          = ([⟨.yearL 2023, 4⟩] : DbSlice).map (fun r => r.agg_value)
            ++ [Period.truncY ⟨2024, 3, 15, 14⟩]) :=
  ⟨(C3_retention_sets ⟨2024, 3, 15, 14⟩ ⟨1, fun _ _ _ => 7⟩
      [⟨.yearL 2023, 4⟩] [⟨.yearL 2023, 4⟩, ⟨.yearL 2024, 7⟩]
      (by decide)).2.2.2.2.2.2.1,
   (C3_retention_sets ⟨2024, 3, 15, 14⟩ ⟨1, fun _ _ _ => 7⟩
      [⟨.yearL 2023, 4⟩] [⟨.yearL 2023, 4⟩, ⟨.yearL 2024, 7⟩]
      (by decide)).2.2.2.2.2.2.2⟩
